import Mathlib

set_option maxHeartbeats 1600000

namespace Docsrs

/-- Model of a serde_json `Value`.  Objects model `serde_json::Map` (unique keys,
in map order) as association lists; numbers are modelled as integers, which covers
every numeric value the parser inspects (ids and flags). -/
inductive Json where
  | null : Json
  | bool : Bool → Json
  | num : Int → Json
  | str : String → Json
  | arr : List Json → Json
  | obj : List (String × Json) → Json

/-- First-match lookup in an object's field list (serde_json maps have unique keys). -/
def lookupField : List (String × Json) → String → Option Json
  | [], _ => none
  | (k, v) :: rest, key => if k = key then some v else lookupField rest key

/-- Model of `Value::get(key)`: object lookup, `None` on non-objects. -/
def Json.get? : Json → String → Option Json
  | Json.obj fields, key => lookupField fields key
  | _, _ => none

/-- Model of `Value::as_str`. -/
def Json.asStr? : Json → Option String
  | Json.str s => some s
  | _ => none

/-- Model of `Value::as_bool`. -/
def Json.asBool? : Json → Option Bool
  | Json.bool b => some b
  | _ => none

/-- Model of `Value::as_array`. -/
def Json.asArr? : Json → Option (List Json)
  | Json.arr xs => some xs
  | _ => none

/-- Model of `Value::as_object` (just the field list). -/
def Json.asObj? : Json → Option (List (String × Json))
  | Json.obj fields => some fields
  | _ => none

/-- Model of `Value::is_null`. -/
def Json.isNull : Json → Bool
  | Json.null => true
  | _ => false

/-- `v.get(key).and_then(as_str)`. -/
def Json.getStr? (j : Json) (key : String) : Option String := (j.get? key).bind Json.asStr?

/-- `v.get(key).and_then(as_array)`. -/
def Json.getArr? (j : Json) (key : String) : Option (List Json) := (j.get? key).bind Json.asArr?

/-- `v.get(key).and_then(as_bool).unwrap_or(d)`. -/
def Json.getBoolD (j : Json) (key : String) (d : Bool) : Bool :=
  ((j.get? key).bind Json.asBool?).getD d

-- ─── Size lemmas used for termination of the recursive renderer ───────────────

theorem lookupField_sizeOf {fs : List (String × Json)} {key : String} {v : Json}
    (h : lookupField fs key = some v) : sizeOf v < sizeOf fs := by
  induction fs with
  | nil => simp [lookupField] at h
  | cons kv rest ih =>
    obtain ⟨k, w⟩ := kv
    by_cases hk : k = key
    · simp [lookupField, hk] at h
      subst h
      simp
      omega
    · simp [lookupField, hk] at h
      have := ih h
      simp
      omega

theorem Json.get_sizeOf {j : Json} {key : String} {v : Json} (h : j.get? key = some v) :
    sizeOf v < sizeOf j := by
  cases j <;> simp [Json.get?] at h
  case obj fields =>
    have := lookupField_sizeOf h
    simp
    omega

theorem Json.asArr_sizeOf {j : Json} {xs : List Json} (h : Json.asArr? j = some xs) :
    sizeOf xs < sizeOf j := by
  cases j <;> simp [Json.asArr?] at h
  case arr ys =>
    subst h
    simp

theorem Json.getArr_sizeOf {j : Json} {key : String} {xs : List Json}
    (h : j.getArr? key = some xs) : sizeOf xs < sizeOf j := by
  unfold Json.getArr? at h
  obtain ⟨v, hv, hxs⟩ := Option.bind_eq_some.mp h
  exact Nat.lt_trans (Json.asArr_sizeOf hxs) (Json.get_sizeOf hv)

/-- The `rp.get("args").and_then(get "angle_bracketed").and_then(get "args").and_then(as_array)`
chain shared by the resolved-path and direct-path branches of the renderer. -/
def angleArgs (rp : Json) : Option (List Json) :=
  match rp.get? "args" with
  | none => none
  | some a =>
    match a.get? "angle_bracketed" with
    | none => none
    | some ab => ab.getArr? "args"

theorem angleArgs_sizeOf {rp : Json} {xs : List Json} (h : angleArgs rp = some xs) :
    sizeOf xs < sizeOf rp := by
  unfold angleArgs at h
  split at h
  · exact Option.noConfusion h
  · rename_i a h1
    split at h
    · exact Option.noConfusion h
    · rename_i ab h2
      exact Nat.lt_trans (Json.getArr_sizeOf h)
        (Nat.lt_trans (Json.get_sizeOf h2) (Json.get_sizeOf h1))

theorem angleArgs_obj_lt {fields : List (String × Json)} {xs : List Json}
    (h : angleArgs (Json.obj fields) = some xs) : sizeOf xs < 1 + sizeOf fields := by
  have := angleArgs_sizeOf h
  simpa using this

/-- `fp.get("sig").or_else(|| fp.get("decl"))`. -/
def fpSigOrDecl (fp : Json) : Option Json :=
  match fp.get? "sig" with
  | some s => some s
  | none => fp.get? "decl"

theorem fpSigOrDecl_sizeOf {fp d : Json} (h : fpSigOrDecl fp = some d) :
    sizeOf d < sizeOf fp := by
  unfold fpSigOrDecl at h
  split at h
  · rename_i s h1
    injection h with h
    subst h
    exact Json.get_sizeOf h1
  · exact Json.get_sizeOf h

/-- The function-pointer declaration, when the node has one: models the
`if let Some(fp) = obj.get("function_pointer") { if let Some(decl) = fp.get("sig").or(...) }`
nesting (falling through to later branches when either lookup fails). -/
def fpDeclOf (j : Json) : Option Json := (j.get? "function_pointer").bind fpSigOrDecl

theorem fpDeclOf_sizeOf {j d : Json} (h : fpDeclOf j = some d) : sizeOf d < sizeOf j := by
  unfold fpDeclOf at h
  obtain ⟨fp, hfp, hd⟩ := Option.bind_eq_some.mp h
  exact Nat.lt_trans (fpSigOrDecl_sizeOf hd) (Json.get_sizeOf hfp)

theorem fpDeclOf_obj_lt {fields : List (String × Json)} {d : Json}
    (h : fpDeclOf (Json.obj fields) = some d) : sizeOf d < 1 + sizeOf fields := by
  have := fpDeclOf_sizeOf h
  simpa using this

theorem listGet_sizeOf {l : List Json} {n : Nat} {t : Json} (h : l.get? n = some t) :
    sizeOf t < sizeOf l :=
  List.sizeOf_lt_of_mem (List.get?_mem h)

theorem head_lt {α} [SizeOf α] (t : α) (rest : List α) : sizeOf t < 1 + sizeOf t + sizeOf rest := by
  omega

theorem tail_lt {α} [SizeOf α] (t : α) (rest : List α) :
    sizeOf rest < 1 + sizeOf t + sizeOf rest := by
  omega

theorem get_obj_lt {fields : List (String × Json)} {key : String} {v : Json}
    (h : (Json.obj fields).get? key = some v) : sizeOf v < 1 + sizeOf fields := by
  have := Json.get_sizeOf h
  simpa using this

theorem getArr_obj_lt {fields : List (String × Json)} {key : String} {xs : List Json}
    (h : (Json.obj fields).getArr? key = some xs) : sizeOf xs < 1 + sizeOf fields := by
  have := Json.getArr_sizeOf h
  simpa using this

-- ─── serde_json Display (used for the raw structural dump fallback) ───────────

/-- JSON string escaping (the two escapes relevant to the model). -/
def escapeChar (c : Char) : String :=
  if c = '"' then "\\\""
  else if c = '\\' then "\\\\"
  else String.singleton c

def escapeStr (s : String) : String := String.join (s.toList.map escapeChar)

mutual

/-- Model of serde_json's `Display` for `Value` (`ty.to_string()` in the source):
compact JSON text. -/
def jsonToString : Json → String
  | Json.null => "null"
  | Json.bool b => if b then "true" else "false"
  | Json.num n => toString n
  | Json.str s => "\"" ++ escapeStr s ++ "\""
  | Json.arr xs => "[" ++ jsonArrToString xs ++ "]"
  | Json.obj fields => "\x7b" ++ jsonObjToString fields ++ "\x7d"
termination_by j => sizeOf j

def jsonArrToString : List Json → String
  | [] => ""
  | [x] => jsonToString x
  | x :: y :: rest => jsonToString x ++ "," ++ jsonArrToString (y :: rest)
termination_by l => sizeOf l

def jsonObjToString : List (String × Json) → String
  | [] => ""
  | [(k, v)] => "\"" ++ escapeStr k ++ "\":" ++ jsonToString v
  | (k, v) :: f :: rest =>
    "\"" ++ escapeStr k ++ "\":" ++ jsonToString v ++ "," ++ jsonObjToString (f :: rest)
termination_by l => sizeOf l

end

-- ─── The type renderer ────────────────────────────────────────────────────────

/-- The apostrophe character (lifetime marker). -/
def apos : Char := Char.ofNat 39

/-- The lifetime marker as a string. -/
def aposStr : String := String.singleton apos

/-- Model of `lt.starts_with(marker)` for the lifetime marker character. -/
def strHeadIsApos (s : String) : Bool :=
  match s.toList with
  | [] => false
  | c :: _ => c == apos

/-- `trait_val.map(|v| v.is_null()).unwrap_or(true)` from the qualified-path branch. -/
def traitIsAbsent (qp : Json) : Bool :=
  match qp.get? "trait" with
  | none => true
  | some v => v.isNull

mutual

/-- Model of `type_to_string` from `src/docsrs/parser.rs`: recursively convert a
rustdoc JSON type value to a human-readable string.  Totality (the "never
panics" half of the contract) is witnessed by this definition being accepted as
a terminating function.  Each branch body is lambda-lifted into a named helper
(`borrowed_ref_str`, `dyn_trait_str`, ...) for this mutual block. -/
def type_to_string : Json → String
  | Json.null => "()"
  | Json.bool b => jsonToString (Json.bool b)
  | Json.num n => jsonToString (Json.num n)
  | Json.str s => jsonToString (Json.str s)
  | Json.arr xs => jsonToString (Json.arr xs)
  | Json.obj fields =>
    match (Json.obj fields).getStr? "primitive" with
    | some p => p
    | none =>
      match (Json.obj fields).getStr? "generic" with
      | some g => g
      | none =>
        match hrp : (Json.obj fields).get? "resolved_path" with
        | some rp => resolved_path_str rp
        | none =>
          match hbr : (Json.obj fields).get? "borrowed_ref" with
          | some br => borrowed_ref_str br
          | none =>
            match htup : (Json.obj fields).getArr? "tuple" with
            | some tup => "(" ++ String.intercalate ", " (renderTypeList tup) ++ ")"
            | none =>
              match hsl : (Json.obj fields).get? "slice" with
              | some sl => "[" ++ type_to_string sl ++ "]"
              | none =>
                match harr : (Json.obj fields).get? "array" with
                | some arrv => array_str arrv
                | none =>
                  match hptr : (Json.obj fields).get? "raw_pointer" with
                  | some ptr => raw_pointer_str ptr
                  | none =>
                    match himpl : (Json.obj fields).getArr? "impl_trait" with
                    | some bounds => "impl " ++ String.intercalate " + " (renderTraitBounds bounds)
                    | none =>
                      match hdt : (Json.obj fields).get? "dyn_trait" with
                      | some dt => dyn_trait_str dt
                      | none =>
                        match hfp : fpDeclOf (Json.obj fields) with
                        | some decl => fn_pointer_str decl
                        | none =>
                          match hqp : (Json.obj fields).get? "qualified_path" with
                          | some qp => qualified_path_str qp
                          | none =>
                            match (Json.obj fields).get? "id", (Json.obj fields).getStr? "path" with
                            | some _, some pathStr =>
                              let name := if pathStr = "" then "_" else pathStr
                              match hargs2 : angleArgs (Json.obj fields) with
                              | some args =>
                                let typeArgs := renderTypeArgs args
                                if typeArgs.isEmpty then name
                                else name ++ "<" ++ String.intercalate ", " typeArgs ++ ">"
                              | none => name
                            | _, _ => jsonToString (Json.obj fields)
termination_by ty => sizeOf ty
decreasing_by
all_goals simp_wf
all_goals solve_by_elim [Json.get_sizeOf, Json.getArr_sizeOf, Json.asArr_sizeOf,
  angleArgs_sizeOf, fpDeclOf_sizeOf, listGet_sizeOf, get_obj_lt, getArr_obj_lt,
  angleArgs_obj_lt, fpDeclOf_obj_lt, head_lt, tail_lt, Nat.lt_trans]

/-- The resolved-path branch: `Name<Arg1, ...>` or bare name. -/
def resolved_path_str (rp : Json) : String :=
  let name := (((rp.get? "path").orElse (fun _ => rp.get? "name")).bind Json.asStr?).getD "_"
  match hargs : angleArgs rp with
  | some args =>
    let typeArgs := renderTypeArgs args
    if typeArgs.isEmpty then name
    else name ++ "<" ++ String.intercalate ", " typeArgs ++ ">"
  | none => name
termination_by sizeOf rp
decreasing_by
all_goals simp_wf
all_goals solve_by_elim [angleArgs_sizeOf]

/-- The borrowed-reference branch: `&`, optional lifetime (normalized to one
marker), optional `mut `, inner type. -/
def borrowed_ref_str (br : Json) : String :=
  let lifetime := br.getStr? "lifetime"
  let mutFlag := br.getBoolD "mutable" false
  let inner :=
    match hbt : br.get? "type" with
    | some t => type_to_string t
    | none => "_"
  let mutStr := if mutFlag then "mut " else ""
  match lifetime with
  | some lt =>
    if lt ≠ "" then
      if strHeadIsApos lt then "&" ++ lt ++ " " ++ mutStr ++ inner
      else "&" ++ aposStr ++ lt ++ " " ++ mutStr ++ inner
    else "&" ++ mutStr ++ inner
  | none => "&" ++ mutStr ++ inner
termination_by sizeOf br
decreasing_by
all_goals simp_wf
all_goals solve_by_elim [Json.get_sizeOf]

/-- The array branch: `[elem; len]`. -/
def array_str (arrv : Json) : String :=
  let elem :=
    match hat : arrv.get? "type" with
    | some t => type_to_string t
    | none => "_"
  let len := (arrv.getStr? "len").getD "_"
  "[" ++ elem ++ "; " ++ len ++ "]"
termination_by sizeOf arrv
decreasing_by
all_goals simp_wf
all_goals solve_by_elim [Json.get_sizeOf]

/-- The raw-pointer branch: `*const T` / `*mut T`. -/
def raw_pointer_str (ptr : Json) : String :=
  let mutFlag := ptr.getBoolD "mutable" false
  let inner :=
    match hpt : ptr.get? "type" with
    | some t => type_to_string t
    | none => "_"
  let mutStr := if mutFlag then "mut" else "const"
  "*" ++ mutStr ++ " " ++ inner
termination_by sizeOf ptr
decreasing_by
all_goals simp_wf
all_goals solve_by_elim [Json.get_sizeOf]

/-- The dyn-trait branch: `dyn Bound1 + Bound2 [+ lifetime]`; the lifetime is
emitted verbatim (no marker normalization in the source). -/
def dyn_trait_str (dt : Json) : String :=
  let traits :=
    match hts : dt.getArr? "traits" with
    | some ts => String.intercalate " + " (renderDynTraits ts)
    | none => ""
  match dt.getStr? "lifetime" with
  | some lt =>
    if lt ≠ "" then "dyn " ++ traits ++ " + " ++ lt
    else "dyn " ++ traits
  | none => "dyn " ++ traits
termination_by sizeOf dt
decreasing_by
all_goals simp_wf
all_goals solve_by_elim [Json.getArr_sizeOf]

/-- The function-pointer branch body (given the `sig`-or-`decl` object). -/
def fn_pointer_str (decl : Json) : String :=
  let inputs :=
    match hin : decl.getArr? "inputs" with
    | some ins => String.intercalate ", " (renderFnInputs ins)
    | none => ""
  let output :=
    match hout : decl.get? "output" with
    | some o => type_to_string o
    | none => ""
  if output = "" ∨ output = "()" then "fn(" ++ inputs ++ ")"
  else "fn(" ++ inputs ++ ") -> " ++ output
termination_by sizeOf decl
decreasing_by
all_goals simp_wf
all_goals solve_by_elim [Json.get_sizeOf, Json.getArr_sizeOf]

/-- The qualified-path branch: `<Self as Trait>::Name`, or `Self::Name` when
the trait field is absent or JSON null. -/
def qualified_path_str (qp : Json) : String :=
  let selfType :=
    match hst : qp.get? "self_type" with
    | some t => type_to_string t
    | none => "_"
  let qname := (qp.getStr? "name").getD "_"
  if traitIsAbsent qp then selfType ++ "::" ++ qname
  else
    let traitName :=
      match htr : qp.get? "trait" with
      | some tv => type_to_string tv
      | none => ""
    "<" ++ selfType ++ " as " ++ traitName ++ ">::" ++ qname
termination_by sizeOf qp
decreasing_by
all_goals simp_wf
all_goals solve_by_elim [Json.get_sizeOf]

/-- `args.iter().filter_map(|a| a.get("type").map(type_to_string))`. -/
def renderTypeArgs : List Json → List String
  | [] => []
  | a :: rest =>
    match ht : a.get? "type" with
    | some t => type_to_string t :: renderTypeArgs rest
    | none => renderTypeArgs rest
termination_by l => sizeOf l
decreasing_by
all_goals simp_wf
all_goals first
  | omega
  | exact Nat.lt_trans (Json.get_sizeOf ht) (by omega)

/-- `tup.iter().map(type_to_string)`. -/
def renderTypeList : List Json → List String
  | [] => []
  | t :: rest => type_to_string t :: renderTypeList rest
termination_by l => sizeOf l
decreasing_by
all_goals simp_wf
all_goals omega

/-- `bounds.iter().filter_map(get "trait_bound").filter_map(get "trait").map(type_to_string)`. -/
def renderTraitBounds : List Json → List String
  | [] => []
  | b :: rest =>
    match hb : b.get? "trait_bound" with
    | some tb =>
      match ht : tb.get? "trait" with
      | some tr => type_to_string tr :: renderTraitBounds rest
      | none => renderTraitBounds rest
    | none => renderTraitBounds rest
termination_by l => sizeOf l
decreasing_by
all_goals simp_wf
all_goals first
  | omega
  | exact Nat.lt_trans (Json.get_sizeOf ht) (Nat.lt_trans (Json.get_sizeOf hb) (by omega))

/-- `ts.iter().filter_map(|t| t.get("trait")).map(type_to_string)`. -/
def renderDynTraits : List Json → List String
  | [] => []
  | t :: rest =>
    match ht : t.get? "trait" with
    | some tr => type_to_string tr :: renderDynTraits rest
    | none => renderDynTraits rest
termination_by l => sizeOf l
decreasing_by
all_goals simp_wf
all_goals first
  | omega
  | exact Nat.lt_trans (Json.get_sizeOf ht) (by omega)

/-- `inputs.iter().filter_map(as_array).map(|pair| "name: Type")` from the
function-pointer branch. -/
def renderFnInputs : List Json → List String
  | [] => []
  | i :: rest =>
    match hi : Json.asArr? i with
    | some pair =>
      let pname := (pair.head?.bind Json.asStr?).getD "_"
      let pty :=
        match hp : pair.get? 1 with
        | some t => type_to_string t
        | none => "_"
      (pname ++ ": " ++ pty) :: renderFnInputs rest
    | none => renderFnInputs rest
termination_by l => sizeOf l
decreasing_by
all_goals simp_wf
all_goals first
  | omega
  | exact Nat.lt_trans (listGet_sizeOf hp) (Nat.lt_trans (Json.asArr_sizeOf hi) (by omega))

end

-- ─── Single-key object lookup lemmas and branch-selection lemmas ──────────────

theorem get_obj_single (k k2 : String) (v : Json) :
    (Json.obj [(k, v)]).get? k2 = if k = k2 then some v else none := by
  simp [Json.get?, lookupField]

theorem getStr_obj_single (k k2 : String) (v : Json) :
    (Json.obj [(k, v)]).getStr? k2 = if k = k2 then v.asStr? else none := by
  by_cases h : k = k2 <;> simp [Json.getStr?, get_obj_single, h]

theorem getArr_obj_single (k k2 : String) (v : Json) :
    (Json.obj [(k, v)]).getArr? k2 = if k = k2 then v.asArr? else none := by
  by_cases h : k = k2 <;> simp [Json.getArr?, get_obj_single, h]

theorem fpDeclOf_obj_single (k : String) (v : Json) :
    fpDeclOf (Json.obj [(k, v)]) = if k = "function_pointer" then fpSigOrDecl v else none := by
  by_cases h : k = "function_pointer" <;> simp [fpDeclOf, get_obj_single, h]


theorem tts_obj_borrowed_ref (br : Json) :
    type_to_string (Json.obj [("borrowed_ref", br)]) = borrowed_ref_str br := by
  rw [type_to_string.eq_def]
  simp only [getStr_obj_single, String.reduceEq, reduceIte]
  split
  · rename_i rp hrp
    simp [get_obj_single] at hrp
  · split
    · rename_i br2 hbr
      simp [get_obj_single] at hbr
      subst hbr
      rfl
    · rename_i hbr
      simp [get_obj_single] at hbr

theorem tts_obj_dyn_trait (dt : Json) :
    type_to_string (Json.obj [("dyn_trait", dt)]) = dyn_trait_str dt := by
  rw [type_to_string.eq_def]
  simp only [getStr_obj_single, String.reduceEq, reduceIte]
  split
  · rename_i x hx
    simp [get_obj_single, getArr_obj_single, fpDeclOf_obj_single] at hx
  ·
    split
    · rename_i x hx
      simp [get_obj_single, getArr_obj_single, fpDeclOf_obj_single] at hx
    ·
      split
      · rename_i x hx
        simp [get_obj_single, getArr_obj_single, fpDeclOf_obj_single] at hx
      ·
        split
        · rename_i x hx
          simp [get_obj_single, getArr_obj_single, fpDeclOf_obj_single] at hx
        ·
          split
          · rename_i x hx
            simp [get_obj_single, getArr_obj_single, fpDeclOf_obj_single] at hx
          ·
            split
            · rename_i x hx
              simp [get_obj_single, getArr_obj_single, fpDeclOf_obj_single] at hx
            ·
              split
              · rename_i x hx
                simp [get_obj_single, getArr_obj_single, fpDeclOf_obj_single] at hx
              ·
                split
                · rename_i y hy
                  simp [get_obj_single, getArr_obj_single, fpDeclOf_obj_single] at hy
                  subst hy
                  rfl
                · rename_i hy
                  simp [get_obj_single, getArr_obj_single, fpDeclOf_obj_single] at hy

theorem tts_obj_qualified_path (qp : Json) :
    type_to_string (Json.obj [("qualified_path", qp)]) = qualified_path_str qp := by
  rw [type_to_string.eq_def]
  simp only [getStr_obj_single, String.reduceEq, reduceIte]
  split
  · rename_i x hx
    simp [get_obj_single, getArr_obj_single, fpDeclOf_obj_single] at hx
  ·
    split
    · rename_i x hx
      simp [get_obj_single, getArr_obj_single, fpDeclOf_obj_single] at hx
    ·
      split
      · rename_i x hx
        simp [get_obj_single, getArr_obj_single, fpDeclOf_obj_single] at hx
      ·
        split
        · rename_i x hx
          simp [get_obj_single, getArr_obj_single, fpDeclOf_obj_single] at hx
        ·
          split
          · rename_i x hx
            simp [get_obj_single, getArr_obj_single, fpDeclOf_obj_single] at hx
          ·
            split
            · rename_i x hx
              simp [get_obj_single, getArr_obj_single, fpDeclOf_obj_single] at hx
            ·
              split
              · rename_i x hx
                simp [get_obj_single, getArr_obj_single, fpDeclOf_obj_single] at hx
              ·
                split
                · rename_i x hx
                  simp [get_obj_single, getArr_obj_single, fpDeclOf_obj_single] at hx
                ·
                  split
                  · rename_i x hx
                    simp [get_obj_single, getArr_obj_single, fpDeclOf_obj_single] at hx
                  ·
                    split
                    · rename_i y hy
                      simp [get_obj_single, getArr_obj_single, fpDeclOf_obj_single] at hy
                      subst hy
                      rfl
                    · rename_i hy
                      simp [get_obj_single, getArr_obj_single, fpDeclOf_obj_single] at hy

-- ─── C5: lifetime-marker normalization on borrowed references ─────────────────

/-- Number of leading lifetime-marker characters of a string. -/
def countLeadingApos (s : String) : Nat := (s.toList.takeWhile (fun c => c == apos)).length

theorem strHeadIsApos_false_takeWhile {s : String} (h : strHeadIsApos s = false) :
    s.toList.takeWhile (fun c => c == apos) = [] := by
  unfold strHeadIsApos at h
  cases hl : s.toList with
  | nil => simp
  | cons c rest =>
    rw [hl] at h
    have hb : (c == apos) = false := by simpa using h
    simp only [List.takeWhile, hb]

theorem countLeadingApos_eq_one_of_head {s : String} (h : strHeadIsApos s = true)
    (hc : countLeadingApos s ≤ 1) : countLeadingApos s = 1 := by
  have h2 : (match s.data with | [] => false | c :: _ => c == apos) = true := h
  have hc2 : (List.takeWhile (fun c => c == apos) s.data).length ≤ 1 := hc
  show (List.takeWhile (fun c => c == apos) s.data).length = 1
  cases hl : s.data with
  | nil =>
    rw [hl] at h2
    simp at h2
  | cons c rest =>
    rw [hl] at h2 hc2
    have hb : (c == apos) = true := by simpa using h2
    simp only [List.takeWhile, hb] at hc2 ⊢
    simp at hc2 ⊢
    first
      | omega
      | exact hc2
      | simpa using hc2

theorem countLeadingApos_append_of_head_false {s : String} (h : strHeadIsApos s = false) :
    countLeadingApos (aposStr ++ s) = 1 := by
  unfold countLeadingApos
  have hdata : (aposStr ++ s).toList = apos :: s.toList := by
    simp [aposStr, String.singleton, String.toList]
  rw [hdata]
  have hb : (apos == apos) = true := by simp
  simp only [List.takeWhile, hb, strHeadIsApos_false_takeWhile h]
  simp

/-- C5 counterexample: a borrowed-reference node over `T` whose non-empty raw
lifetime already begins with a doubled marker renders with two leading markers,
producing exactly the forbidden string `"&\x27\x27a T"`; so the claim, read over
every non-empty raw lifetime, is false. -/
theorem c5_lifetime_counterexample :
    type_to_string (Json.obj [("borrowed_ref", Json.obj
      [("lifetime", Json.str (aposStr ++ aposStr ++ "a")), ("mutable", Json.bool false),
       ("type", Json.obj [("generic", Json.str "T")])])]) =
      "&" ++ aposStr ++ aposStr ++ "a T"
    ∧ "&" ++ aposStr ++ aposStr ++ "a T" ≠ "&" ++ aposStr ++ "a T" := by
  constructor
  · rw [tts_obj_borrowed_ref]
    simp [borrowed_ref_str, Json.getStr?, Json.get?, lookupField, Json.asStr?,
      Json.getBoolD, Json.asBool?, strHeadIsApos, apos, aposStr, type_to_string,
      getStr_obj_single]
    decide
  · decide

/-- C5 (amended): for every borrowed-reference node whose raw lifetime is a
non-empty string `lt` and whose inner type is present, the rendered string is
`"&" ++ E ++ " " ++ mut ++ inner` where `E` keeps `lt` verbatim when it already
starts with the marker and prepends one marker otherwise; consequently `E`
carries exactly one leading marker whenever `lt` carries at most one (in
particular for the bare form `"a"` and the marked form `"\x27a"`, which both
render `"&\x27a T"` over `T`).  The original claim fails only for raw lifetimes
that already begin with a doubled marker. -/
theorem c5_lifetime_normalization (br inner : Json) (lt : String)
    (hlt : br.get? "lifetime" = some (Json.str lt)) (hne : lt ≠ "")
    (hty : br.get? "type" = some inner) :
    type_to_string (Json.obj [("borrowed_ref", br)]) =
      (if strHeadIsApos lt then "&" ++ lt else "&" ++ aposStr ++ lt) ++ " " ++
        (if br.getBoolD "mutable" false then "mut " else "") ++ type_to_string inner
    ∧ (countLeadingApos lt ≤ 1 →
       countLeadingApos (if strHeadIsApos lt then lt else aposStr ++ lt) = 1) := by
  constructor
  · rw [tts_obj_borrowed_ref]
    rw [borrowed_ref_str.eq_def]
    simp [Json.getStr?, hlt, Json.asStr?, hne]
    by_cases hap : strHeadIsApos lt
    all_goals simp [hap]
    all_goals split
    all_goals split
    all_goals
      (rename_i h
       rw [hty] at h
       first
         | (injection h with h
            subst h
            rfl)
         | exact Option.noConfusion h)
  · intro hc
    by_cases hap : strHeadIsApos lt
    · rw [if_pos hap]
      exact countLeadingApos_eq_one_of_head hap hc
    · have hb : strHeadIsApos lt = false := by simpa using hap
      rw [if_neg hap]
      exact countLeadingApos_append_of_head_false hb

/-- C5 witness: both the bare raw lifetime `"a"` and the already-marked raw
lifetime `"\x27a"` on a shared reference to `T` render exactly `"&\x27a T"`. -/
theorem c5_lifetime_normalization_witness :
    type_to_string (Json.obj [("borrowed_ref", Json.obj
      [("lifetime", Json.str "a"), ("mutable", Json.bool false),
       ("type", Json.obj [("generic", Json.str "T")])])]) = "&" ++ aposStr ++ "a T"
    ∧ type_to_string (Json.obj [("borrowed_ref", Json.obj
      [("lifetime", Json.str (aposStr ++ "a")), ("mutable", Json.bool false),
       ("type", Json.obj [("generic", Json.str "T")])])]) = "&" ++ aposStr ++ "a T" := by
  constructor
  · have h := (c5_lifetime_normalization
      (Json.obj [("lifetime", Json.str "a"), ("mutable", Json.bool false),
        ("type", Json.obj [("generic", Json.str "T")])])
      (Json.obj [("generic", Json.str "T")]) "a"
      (by simp [Json.get?, lookupField]) (by decide) (by simp [Json.get?, lookupField])).1
    rw [h]
    simp [strHeadIsApos, apos, Json.getBoolD, Json.get?, lookupField, Json.asBool?,
      type_to_string, getStr_obj_single]
    decide
  · have h := (c5_lifetime_normalization
      (Json.obj [("lifetime", Json.str (aposStr ++ "a")), ("mutable", Json.bool false),
        ("type", Json.obj [("generic", Json.str "T")])])
      (Json.obj [("generic", Json.str "T")]) (aposStr ++ "a")
      (by simp [Json.get?, lookupField]) (by decide) (by simp [Json.get?, lookupField])).1
    rw [h]
    simp [strHeadIsApos, apos, aposStr, Json.getBoolD, Json.get?, lookupField, Json.asBool?,
      type_to_string, getStr_obj_single]
    decide

-- ─── C6: dyn-trait lifetime rendering ─────────────────────────────────────────

/-- C6 counterexample: a dyn-trait node with bound `Error` and the bare raw
lifetime `"a"` renders `"dyn Error + a"` — the lifetime is emitted verbatim, so
the borrowed-reference marker normalization is NOT applied here. -/
theorem c6_dyn_counterexample :
    type_to_string (Json.obj [("dyn_trait", Json.obj
      [("traits", Json.arr [Json.obj [("trait",
          Json.obj [("resolved_path", Json.obj [("path", Json.str "Error")])])]]),
       ("lifetime", Json.str "a")])]) = "dyn Error + a"
    ∧ "dyn Error + a" ≠ "dyn Error + " ++ aposStr ++ "a" := by
  constructor
  · rw [tts_obj_dyn_trait]
    simp [dyn_trait_str, Json.getStr?, Json.get?, lookupField, Json.asStr?, Json.getArr?,
      Json.asArr?, renderDynTraits, type_to_string, resolved_path_str, angleArgs,
      getStr_obj_single]
    decide
  · decide

/-- C6 (amended): for every dyn-trait node whose `lifetime` field is a non-empty
string `lt`, the output is `"dyn " ++ bounds ++ " + " ++ lt` with the raw
lifetime emitted verbatim — no marker normalization, unlike borrowed
references.  Since rustdoc lifetimes already carry the marker, a dyn-trait with
lifetime `"\x27static"` and bound `Error` still renders exactly
`"dyn Error + \x27static"` (see the witness). -/
theorem c6_dyn_trait_lifetime (dt : Json) (lt : String)
    (hlt : dt.get? "lifetime" = some (Json.str lt)) (hne : lt ≠ "") :
    type_to_string (Json.obj [("dyn_trait", dt)]) =
      "dyn " ++
        (match dt.getArr? "traits" with
         | some ts => String.intercalate " + " (renderDynTraits ts)
         | none => "") ++ " + " ++ lt := by
  rw [tts_obj_dyn_trait]
  rw [dyn_trait_str.eq_def]
  simp [Json.getStr?, hlt, Json.asStr?, hne]
  congr 1
  congr 1
  congr 1
  split
  · rename_i ts h
    rw [h]
  · rename_i h
    rw [h]

/-- C6 witness: `dyn_trait` with lifetime `"\x27static"` and bound `Error`
renders exactly `"dyn Error + \x27static"`. -/
theorem c6_dyn_trait_lifetime_witness :
    type_to_string (Json.obj [("dyn_trait", Json.obj
      [("traits", Json.arr [Json.obj [("trait",
          Json.obj [("resolved_path", Json.obj [("path", Json.str "Error")])])]]),
       ("lifetime", Json.str (aposStr ++ "static"))])]) =
      "dyn Error + " ++ aposStr ++ "static" := by
  have h := c6_dyn_trait_lifetime
    (Json.obj
      [("traits", Json.arr [Json.obj [("trait",
          Json.obj [("resolved_path", Json.obj [("path", Json.str "Error")])])]]),
       ("lifetime", Json.str (aposStr ++ "static"))])
    (aposStr ++ "static")
    (by simp [Json.get?, lookupField]) (by decide)
  rw [h]
  simp [Json.getArr?, Json.get?, lookupField, Json.asArr?, renderDynTraits,
    type_to_string, resolved_path_str, angleArgs, getStr_obj_single, Json.asStr?]
  decide

-- ─── C8: qualified-path rendering ─────────────────────────────────────────────

/-- C8: for every qualified-path node with a self type and a name, the renderer
emits `<SelfType as Trait>::Name` when the `trait` field is present and
non-null, and the shorthand `SelfType::Name` when the `trait` field is absent
or JSON null — never a placeholder trait name. -/
theorem c8_qualified_path (qp st : Json) (nm : String)
    (hst : qp.get? "self_type" = some st) (hnm : qp.get? "name" = some (Json.str nm)) :
    (∀ tv, qp.get? "trait" = some tv → tv.isNull = false →
       type_to_string (Json.obj [("qualified_path", qp)]) =
         "<" ++ type_to_string st ++ " as " ++ type_to_string tv ++ ">::" ++ nm)
    ∧ ((qp.get? "trait" = none ∨ qp.get? "trait" = some Json.null) →
       type_to_string (Json.obj [("qualified_path", qp)]) =
         type_to_string st ++ "::" ++ nm) := by
  constructor
  · intro tv htv hnn
    rw [tts_obj_qualified_path]
    rw [qualified_path_str.eq_def]
    simp [traitIsAbsent, htv, hnn, Json.getStr?, hnm, Json.asStr?]
    split
    · rename_i t h
      rw [hst] at h
      injection h with h
      subst h
      split
      · rename_i tv2 h2
        rw [htv] at h2
        injection h2 with h2
        subst h2
        rfl
      · rename_i h2
        rw [htv] at h2
        exact Option.noConfusion h2
    · rename_i h
      rw [hst] at h
      exact Option.noConfusion h
  · intro habs
    rw [tts_obj_qualified_path]
    rw [qualified_path_str.eq_def]
    have habs2 : traitIsAbsent qp = true := by
      rcases habs with h | h <;> simp [traitIsAbsent, h, Json.isNull]
    simp [habs2, Json.getStr?, hnm, Json.asStr?]
    split
    · rename_i t h
      rw [hst] at h
      injection h with h
      subst h
      rfl
    · rename_i h
      rw [hst] at h
      exact Option.noConfusion h

/-- C8 witness: a qualified path with trait `Iterator` renders
`"<T as Iterator>::Item"`, and one whose trait field is JSON null renders the
shorthand `"T::Item"`. -/
theorem c8_qualified_path_witness :
    type_to_string (Json.obj [("qualified_path", Json.obj
      [("self_type", Json.obj [("generic", Json.str "T")]), ("name", Json.str "Item"),
       ("trait", Json.obj [("resolved_path", Json.obj [("path", Json.str "Iterator")])])])]) =
      "<T as Iterator>::Item"
    ∧ type_to_string (Json.obj [("qualified_path", Json.obj
      [("self_type", Json.obj [("generic", Json.str "T")]), ("name", Json.str "Item"),
       ("trait", Json.null)])]) = "T::Item" := by
  constructor
  · have h := (c8_qualified_path
      (Json.obj
        [("self_type", Json.obj [("generic", Json.str "T")]), ("name", Json.str "Item"),
         ("trait", Json.obj [("resolved_path", Json.obj [("path", Json.str "Iterator")])])])
      (Json.obj [("generic", Json.str "T")]) "Item"
      (by simp [Json.get?, lookupField]) (by simp [Json.get?, lookupField])).1
      (Json.obj [("resolved_path", Json.obj [("path", Json.str "Iterator")])])
      (by simp [Json.get?, lookupField]) (by simp [Json.isNull])
    rw [h]
    simp [type_to_string, resolved_path_str, angleArgs, getStr_obj_single, get_obj_single,
      Json.get?, lookupField, Json.asStr?]
  · have h := (c8_qualified_path
      (Json.obj
        [("self_type", Json.obj [("generic", Json.str "T")]), ("name", Json.str "Item"),
         ("trait", Json.null)])
      (Json.obj [("generic", Json.str "T")]) "Item"
      (by simp [Json.get?, lookupField]) (by simp [Json.get?, lookupField])).2
      (Or.inr (by simp [Json.get?, lookupField]))
    rw [h]
    simp [type_to_string, getStr_obj_single, Json.asStr?]

-- ─── C2: totality of the type renderer and the structural-dump fallback ───────

/-- The condition under which an object value matches none of the recognized
type shapes, so the renderer falls through to the raw structural dump. -/
def falls_through (fields : List (String × Json)) : Prop :=
  (Json.obj fields).getStr? "primitive" = none
  ∧ (Json.obj fields).getStr? "generic" = none
  ∧ (Json.obj fields).get? "resolved_path" = none
  ∧ (Json.obj fields).get? "borrowed_ref" = none
  ∧ (Json.obj fields).getArr? "tuple" = none
  ∧ (Json.obj fields).get? "slice" = none
  ∧ (Json.obj fields).get? "array" = none
  ∧ (Json.obj fields).get? "raw_pointer" = none
  ∧ (Json.obj fields).getArr? "impl_trait" = none
  ∧ (Json.obj fields).get? "dyn_trait" = none
  ∧ fpDeclOf (Json.obj fields) = none
  ∧ (Json.obj fields).get? "qualified_path" = none
  ∧ ((Json.obj fields).get? "id" = none ∨ (Json.obj fields).getStr? "path" = none)

/-- C2: the renderer is total by construction (accepted here as a terminating
function, so every input produces some string); `null` renders `"()"`, a
non-object input renders as its raw dump, and an object matching none of the
recognized shapes falls through to the raw structural dump `jsonToString`
rather than failing. -/
theorem c2_type_to_string_total (ty : Json) :
    type_to_string Json.null = "()"
    ∧ (ty.asObj? = none → ty ≠ Json.null → type_to_string ty = jsonToString ty)
    ∧ (∀ fields, ty = Json.obj fields → falls_through fields →
        type_to_string ty = jsonToString ty) := by
  refine ⟨by simp [type_to_string], ?_, ?_⟩
  · intro h hne
    cases ty with
    | null => exact absurd rfl hne
    | bool b => simp [type_to_string]
    | num n => simp [type_to_string]
    | str s => simp [type_to_string]
    | arr xs => simp [type_to_string]
    | obj fields => simp [Json.asObj?] at h
  · intro fields hty hft
    subst hty
    obtain ⟨h1, h2, h3, h4, h5, h6, h7, h8, h9, h10, h11, h12, h13⟩ := hft
    rw [type_to_string.eq_def]
    simp only [h1, h2]
    split
    · rename_i x hx
      rw [h3] at hx
      exact Option.noConfusion hx
    ·
      split
      · rename_i x hx
        rw [h4] at hx
        exact Option.noConfusion hx
      ·
        split
        · rename_i x hx
          rw [h5] at hx
          exact Option.noConfusion hx
        ·
          split
          · rename_i x hx
            rw [h6] at hx
            exact Option.noConfusion hx
          ·
            split
            · rename_i x hx
              rw [h7] at hx
              exact Option.noConfusion hx
            ·
              split
              · rename_i x hx
                rw [h8] at hx
                exact Option.noConfusion hx
              ·
                split
                · rename_i x hx
                  rw [h9] at hx
                  exact Option.noConfusion hx
                ·
                  split
                  · rename_i x hx
                    rw [h10] at hx
                    exact Option.noConfusion hx
                  ·
                    split
                    · rename_i x hx
                      rw [h11] at hx
                      exact Option.noConfusion hx
                    ·
                      split
                      · rename_i x hx
                        rw [h12] at hx
                        exact Option.noConfusion hx
                      ·
                        rcases h13 with h13 | h13 <;> simp [h13]

/-- C2 witness: an object of unrecognized shape renders as its raw structural
dump, and a bare (non-object) string renders as its raw dump. -/
theorem c2_type_to_string_total_witness :
    type_to_string (Json.obj [("mystery", Json.null)]) =
      jsonToString (Json.obj [("mystery", Json.null)])
    ∧ type_to_string (Json.str "x") = jsonToString (Json.str "x") := by
  constructor
  · exact (c2_type_to_string_total (Json.obj [("mystery", Json.null)])).2.2
      [("mystery", Json.null)] rfl
      ⟨rfl, rfl, rfl, rfl, rfl, rfl, rfl, rfl, rfl, rfl, rfl, rfl, Or.inl rfl⟩
  · exact (c2_type_to_string_total (Json.str "x")).2.1 rfl (fun h => Json.noConfusion h)

-- ─── Item model and signature reconstruction ──────────────────────────────────

/-- Model of `docsrs::types::Item` (rustdoc JSON index entry).  Fields the
parser never reads (`deprecation`, `span`, `visibility`, `links`) are kept as
raw JSON options. -/
structure Item where
  id : Json
  name : Option String
  docs : Option String
  attrs : List Json
  deprecation : Option Json
  inner : Json
  span : Option Json
  visibility : Option Json
  links : Option Json

/-- `Item::kind`: the first key of the `inner` tagged-union object (serde maps
keep unique keys in map order, modelled by the field-list order). -/
def Item.kind (it : Item) : Option String :=
  match it.inner with
  | Json.obj ((k, _) :: _) => some k
  | _ => none

/-- `Item::inner_for`: `self.inner.get(kind)`. -/
def Item.inner_for (it : Item) (kind : String) : Option Json := it.inner.get? kind

/-- `Item::attr_strings`: the `other` string of each attribute entry. -/
def Item.attr_strings (it : Item) : List String :=
  it.attrs.filterMap (fun v => (v.get? "other").bind Json.asStr?)

/-- `Item::doc_summary`: first non-blank line of the doc string. -/
def Item.doc_summary (it : Item) : String :=
  (((it.docs.getD "").splitOn "\n").find? (fun l => !(l.trim == ""))).getD ""

/-- The parameter name of a raw `[name, type]` input pair. -/
def param_name_of (pair : List Json) : String := (pair.head?.bind Json.asStr?).getD "_"

/-- The rendered parameter type of a raw `[name, type]` input pair. -/
def param_ty_of (pair : List Json) : String := ((pair.get? 1).map type_to_string).getD "_"

/-- The per-parameter closure of `function_signature` (lambda-lifted): renders
one `[name, type]` pair, normalizing a `self` receiver to its idiomatic form. -/
def render_param (pair : List Json) : String :=
  let param_name := param_name_of pair
  let ty := param_ty_of pair
  if param_name = "self" then
    if ty = "Self" then "self"
    else if ty = "&Self" then "&self"
    else if ty = "&mut Self" then "&mut self"
    else "self: " ++ ty
  else param_name ++ ": " ++ ty

/-- The parameter-list fragment of `function_signature`. -/
def render_inputs (sig : Json) : String :=
  match sig.getArr? "inputs" with
  | some inputs => String.intercalate ", " ((inputs.filterMap Json.asArr?).map render_param)
  | none => ""

/-- Model of `format_generics` from the source: `<T, const N: usize, ...>`. -/
def format_generics (generics : Option Json) : String :=
  match generics with
  | none => ""
  | some g =>
    match g.getArr? "params" with
    | none => ""
    | some params =>
      if params.isEmpty then ""
      else
        let parts := params.filterMap (fun p =>
          match (p.get? "name").bind Json.asStr? with
          | none => none
          | some name =>
            if name.startsWith "impl " then none
            else
              let kind := p.get? "kind"
              match kind.bind (fun k => k.get? "const") with
              | some const_info =>
                some ("const " ++ name ++ ": " ++
                  (((const_info.get? "type").map type_to_string).getD "_"))
              | none =>
                match (kind.bind (fun k => k.get? "type")).bind (fun t => t.get? "bounds") with
                | some type_bounds =>
                  let bounds :=
                    ((Json.asArr? type_bounds).map (fun bs =>
                      String.intercalate " + "
                        ((bs.filterMap (fun b => (b.get? "trait_bound").bind
                            (fun tb => tb.get? "trait"))).map type_to_string))).getD ""
                  if bounds = "" then some name
                  else some (name ++ ": " ++ bounds)
                | none => some name)
        if parts.isEmpty then ""
        else "<" ++ String.intercalate ", " parts ++ ">"

/-- Model of `format_where` from the source: the `where` block, or empty. -/
def format_where (generics : Option Json) : String :=
  match generics with
  | none => ""
  | some g =>
    match g.getArr? "where_predicates" with
    | none => ""
    | some clauses =>
      if clauses.isEmpty then ""
      else
        let parts := clauses.filterMap (fun c =>
          match c.get? "bound_predicate" with
          | none => none
          | some bp =>
            match (bp.get? "type").map type_to_string with
            | none => none
            | some ty =>
              match (bp.get? "bounds").bind Json.asArr? with
              | none => none
              | some bounds =>
                let bound_strs := (bounds.filterMap (fun b =>
                  (b.get? "trait_bound").bind (fun tb => tb.get? "trait"))).map type_to_string
                if bound_strs.isEmpty then none
                else some (ty ++ ": " ++ String.intercalate " + " bound_strs))
        if parts.isEmpty then ""
        else "\nwhere\n    " ++ String.intercalate ",\n    " parts

/-- Model of `function_signature` from the source. -/
def function_signature (item : Item) : String :=
  match item.inner_for "function" with
  | none => ""
  | some inner =>
    let header := inner.get? "header"
    let asyncFlag := ((header.bind (fun h => h.get? "is_async")).bind Json.asBool?).getD false
    let constFlag := ((header.bind (fun h => h.get? "is_const")).bind Json.asBool?).getD false
    let unsafeFlag := ((header.bind (fun h => h.get? "is_unsafe")).bind Json.asBool?).getD false
    match inner.get? "sig" with
    | none => ""
    | some sig =>
      let name := item.name.getD "_"
      let generics := inner.get? "generics"
      let generic_str := format_generics generics
      let inputs := render_inputs sig
      let output := ((sig.get? "output").filter (fun v => !v.isNull)).map type_to_string
      let where_str := format_where generics
      let pre := (if constFlag then "const " else "") ++ (if asyncFlag then "async " else "") ++
        (if unsafeFlag then "unsafe " else "")
      let output_str :=
        match output with
        | some s => if s ≠ "()" then " -> " ++ s else ""
        | none => ""
      pre ++ "fn " ++ name ++ generic_str ++ "(" ++ inputs ++ ")" ++ output_str ++ where_str

theorem string_append_left_cancel {a b c : String} (h : a ++ b = a ++ c) : b = c := by
  have hd := congrArg String.data h
  rw [String.data_append, String.data_append] at hd
  exact String.ext (List.append_cancel_left hd)

-- ─── C4: self-receiver normalization ──────────────────────────────────────────

/-- C4: in every signature produced by `function_signature` the parameter
fragments are exactly `render_param` of the raw input pairs, and `render_param`
maps a parameter literally named `"self"` with rendered type exactly `Self`,
`&Self`, `&mut Self` to bare `self`, `&self`, `&mut self` respectively, maps a
`"self"` parameter of any other rendered type to `"self: Type"`, and never
produces `"self: Self"`. -/
theorem c4_self_receiver (pair : List Json) :
    (param_name_of pair = "self" →
      (param_ty_of pair = "Self" → render_param pair = "self")
      ∧ (param_ty_of pair = "&Self" → render_param pair = "&self")
      ∧ (param_ty_of pair = "&mut Self" → render_param pair = "&mut self")
      ∧ (param_ty_of pair ≠ "Self" → param_ty_of pair ≠ "&Self" →
         param_ty_of pair ≠ "&mut Self" →
         render_param pair = "self: " ++ param_ty_of pair)
      ∧ render_param pair ≠ "self: Self")
    ∧ (∀ item inner sig inputs, Item.inner_for item "function" = some inner →
        inner.get? "sig" = some sig → sig.getArr? "inputs" = some inputs →
        ∃ pre post, function_signature item =
          pre ++ "(" ++ String.intercalate ", "
            ((inputs.filterMap Json.asArr?).map render_param) ++ ")" ++ post) := by
  constructor
  · intro hn
    refine ⟨?_, ?_, ?_, ?_, ?_⟩
    · intro h
      simp [render_param, hn, h]
    · intro h
      simp [render_param, hn, h]
    · intro h
      simp [render_param, hn, h]
    · intro h1 h2 h3
      simp [render_param, hn, h1, h2, h3]
    · by_cases h1 : param_ty_of pair = "Self"
      · simp [render_param, hn, h1]
      · by_cases h2 : param_ty_of pair = "&Self"
        · simp [render_param, hn, h1, h2]
        · by_cases h3 : param_ty_of pair = "&mut Self"
          · simp [render_param, hn, h1, h2, h3]
          · simp only [render_param, hn, h1, h2, h3, if_pos rfl, if_neg]
            simp
            intro hEq
            have : "self: " ++ param_ty_of pair = "self: " ++ "Self" := by
              rw [hEq]
              decide
            exact h1 (string_append_left_cancel this)
  · intro item inner sig inputs hinner hsig hinputs
    refine ⟨(if (((inner.get? "header").bind (fun h => h.get? "is_const")).bind
          Json.asBool?).getD false then "const " else "") ++
        (if (((inner.get? "header").bind (fun h => h.get? "is_async")).bind
          Json.asBool?).getD false then "async " else "") ++
        (if (((inner.get? "header").bind (fun h => h.get? "is_unsafe")).bind
          Json.asBool?).getD false then "unsafe " else "") ++
        "fn " ++ item.name.getD "_" ++ format_generics (inner.get? "generics"),
      (match ((sig.get? "output").filter (fun v => !v.isNull)).map type_to_string with
        | some s => if s ≠ "()" then " -> " ++ s else ""
        | none => "") ++ format_where (inner.get? "generics"), ?_⟩
    rw [function_signature.eq_def]
    rw [hinner]
    simp only [hsig]
    rw [render_inputs.eq_def]
    simp only [hinputs]
    simp [String.append_assoc]

/-- C4 witness: the four receiver forms at concrete pairs, and a concrete
function item whose full signature carries the normalized `self` fragment. -/
theorem c4_self_receiver_witness :
    render_param [Json.str "self", Json.obj [("generic", Json.str "Self")]] = "self"
    ∧ render_param [Json.str "self",
        Json.obj [("borrowed_ref",
          Json.obj [("type", Json.obj [("generic", Json.str "Self")])])]] = "&self"
    ∧ render_param [Json.str "self",
        Json.obj [("borrowed_ref",
          Json.obj [("mutable", Json.bool true),
            ("type", Json.obj [("generic", Json.str "Self")])])]] = "&mut self"
    ∧ render_param [Json.str "self", Json.obj [("generic", Json.str "Pin")]] = "self: Pin"
    ∧ ∃ pre post,
        function_signature (Item.mk Json.null (some "foo") none [] none
          (Json.obj [("function", Json.obj [("sig", Json.obj [("inputs",
            Json.arr [Json.arr [Json.str "self", Json.obj [("generic", Json.str "Self")]]])])])])
          none none none) =
          pre ++ "(" ++ "self" ++ ")" ++ post := by
  have hrp1 : render_param [Json.str "self", Json.obj [("generic", Json.str "Self")]] = "self" :=
    ((c4_self_receiver [Json.str "self", Json.obj [("generic", Json.str "Self")]]).1 rfl).1
      (by simp [param_ty_of, type_to_string, getStr_obj_single, Json.asStr?])
  refine ⟨hrp1, ?_, ?_, ?_, ?_⟩
  · exact ((c4_self_receiver [Json.str "self",
        Json.obj [("borrowed_ref",
          Json.obj [("type", Json.obj [("generic", Json.str "Self")])])]]).1 rfl).2.1
      (by simp [param_ty_of, type_to_string, borrowed_ref_str, getStr_obj_single,
        get_obj_single, Json.get?, lookupField, Json.asStr?, Json.getStr?, Json.getBoolD,
        Json.asBool?]
          decide)
  · exact ((c4_self_receiver [Json.str "self",
        Json.obj [("borrowed_ref",
          Json.obj [("mutable", Json.bool true),
            ("type", Json.obj [("generic", Json.str "Self")])])]]).1 rfl).2.2.1
      (by simp [param_ty_of, type_to_string, borrowed_ref_str, getStr_obj_single,
        get_obj_single, Json.get?, lookupField, Json.asStr?, Json.getStr?, Json.getBoolD,
        Json.asBool?]
          decide)
  · have hty : param_ty_of [Json.str "self", Json.obj [("generic", Json.str "Pin")]] = "Pin" := by
      simp [param_ty_of, type_to_string, getStr_obj_single, Json.asStr?]
    have h := ((c4_self_receiver [Json.str "self",
        Json.obj [("generic", Json.str "Pin")]]).1 rfl).2.2.2.1
      (by rw [hty]; decide) (by rw [hty]; decide) (by rw [hty]; decide)
    rw [hty] at h
    rw [h]
    decide
  · obtain ⟨pre, post, h⟩ := (c4_self_receiver []).2
      (Item.mk Json.null (some "foo") none [] none
        (Json.obj [("function", Json.obj [("sig", Json.obj [("inputs",
          Json.arr [Json.arr [Json.str "self", Json.obj [("generic", Json.str "Self")]]])])])])
        none none none)
      (Json.obj [("sig", Json.obj [("inputs",
        Json.arr [Json.arr [Json.str "self", Json.obj [("generic", Json.str "Self")]]])])])
      (Json.obj [("inputs",
        Json.arr [Json.arr [Json.str "self", Json.obj [("generic", Json.str "Self")]]])])
      [Json.arr [Json.str "self", Json.obj [("generic", Json.str "Self")]]]
      rfl rfl rfl
    refine ⟨pre, post, ?_⟩
    rw [h]
    have hone : String.intercalate ", " ["self"] = "self" := by decide
    simp [Json.asArr?, hrp1, hone]

/-- Model of `Vec::dedup` on the sorted list: drop consecutive duplicates. -/
def dedupAdj : List String → List String
  | [] => []
  | [x] => [x]
  | x :: y :: rest => if x = y then dedupAdj (y :: rest) else x :: dedupAdj (y :: rest)

theorem dedupAdj_mem {a : String} : ∀ {l : List String}, a ∈ dedupAdj l ↔ a ∈ l := by
  intro l
  induction l with
  | nil => simp [dedupAdj]
  | cons x xs ih =>
    cases xs with
    | nil => simp [dedupAdj]
    | cons y rest =>
      by_cases h : x = y
      · subst h
        rw [show dedupAdj (x :: x :: rest) = dedupAdj (x :: rest) from by simp [dedupAdj]]
        rw [ih]
        simp
      · simp only [dedupAdj, if_neg h]
        simp
        rw [ih]
        simp

theorem dedupAdj_pairwise_lt : ∀ l : List String, l.Sorted (· ≤ ·) →
    (dedupAdj l).Pairwise (· < ·) := by
  intro l
  induction l with
  | nil =>
    intro
    simp [dedupAdj]
  | cons x xs ih =>
    intro h
    cases xs with
    | nil => simp [dedupAdj]
    | cons y rest =>
      have hyx : x ≤ y := (List.pairwise_cons.mp h).1 y (by simp)
      have htail : (y :: rest).Sorted (· ≤ ·) := (List.pairwise_cons.mp h).2
      by_cases hxy : x = y
      · simp only [dedupAdj, if_pos hxy]
        exact ih htail
      · simp only [dedupAdj, if_neg hxy]
        refine List.pairwise_cons.mpr ⟨?_, ih htail⟩
        intro z hz
        rw [dedupAdj_mem] at hz
        rcases List.mem_cons.mp hz with rfl | hzr
        · exact lt_of_le_of_ne hyx hxy
        · have hyz : y ≤ z := (List.pairwise_cons.mp htail).1 z hzr
          exact lt_of_lt_of_le (lt_of_le_of_ne hyx hxy) hyz

-- ─── Feature-flag extraction ──────────────────────────────────────────────────

/-- The literal prefix of the feature-gate pattern
`name: "feature", value: Some\("([^"]+)"\)` used by `extract_feature_requirements`. -/
def featLit : List Char := "name: \"feature\", value: Some(\"".toList


theorem feat_post_lt {l : List Char} {q r : Char} {post : List Char}
    (h : (l.drop featLit.length).dropWhile (fun ch => !(ch == '"')) = q :: r :: post) :
    post.length < l.length := by
  have h1 := congrArg List.length h
  simp at h1
  have h2 : ((l.drop featLit.length).dropWhile (fun ch => !(ch == '"'))).length ≤
      (l.drop featLit.length).length := List.Sublist.length_le (List.dropWhile_sublist (fun ch => !(ch == '"')))
  have h3 : (l.drop featLit.length).length = l.length - featLit.length := by
    simp
  have h4 : featLit.length = 30 := by decide
  omega

/-- Model of `captures_iter` for the feature regex: scan left to right; at a
match of the literal prefix, capture the maximal non-empty run of non-quote
characters, require it to be followed by `")`, and continue after the match;
on any failure resume scanning one character later (regex leftmost semantics). -/
def findFeatures : List Char → List String
  | [] => []
  | c :: rest =>
    if featLit.isPrefixOf (c :: rest) then
      match hp : ((c :: rest).drop featLit.length).dropWhile (fun ch => !(ch == '"')) with
      | q :: p :: post2 =>
        if ((c :: rest).drop featLit.length).takeWhile (fun ch => !(ch == '"')) ≠ [] ∧
            q = '"' ∧ p = ')' then
          String.mk (((c :: rest).drop featLit.length).takeWhile (fun ch => !(ch == '"'))) ::
            findFeatures post2
        else findFeatures rest
      | _ => findFeatures rest
    else findFeatures rest
termination_by l => l.length
decreasing_by
all_goals simp_wf
all_goals first
  | omega
  | exact feat_post_lt hp
  | (have hlt := feat_post_lt hp
     simp at hlt
     omega)
  | (have hlt := feat_post_lt hp
     omega)

/-- Model of `extract_feature_requirements` from the source: collect all regex
captures across the attribute strings, keep only declared features when the
declared set is non-empty, then sort ascending and deduplicate.  The declared
`HashSet` is modelled as a list (only `contains` and `is_empty` are used). -/
def extract_feature_requirements (attrs : List String) (declared_features : List String) :
    List String :=
  let features := (attrs.map (fun attr => findFeatures attr.toList)).join
  let features :=
    if declared_features.isEmpty then features
    else features.filter (fun f => declared_features.contains f)
  dedupAdj (List.insertionSort (fun a b => a ≤ b) features)

-- ─── C3: feature extraction is a sorted, deduplicated, filtered list ──────────

/-- C3: for every list of attribute strings and declared-feature set, the
result of `extract_feature_requirements` is sorted ascending and duplicate-free,
every element is one of the flags matched in the attribute strings, a non-empty
declared set further restricts the result to declared flags, and an empty
declared set returns all matched flags unfiltered (as a set). -/
theorem c3_extract_features_filter (attrs declared : List String) :
    (extract_feature_requirements attrs declared).Sorted (· ≤ ·)
    ∧ (extract_feature_requirements attrs declared).Nodup
    ∧ (∀ x ∈ extract_feature_requirements attrs declared,
        x ∈ (attrs.map (fun a => findFeatures a.toList)).join)
    ∧ (declared ≠ [] → ∀ x ∈ extract_feature_requirements attrs declared, x ∈ declared)
    ∧ (declared = [] → ∀ x, (x ∈ extract_feature_requirements attrs declared ↔
        x ∈ (attrs.map (fun a => findFeatures a.toList)).join)) := by
  have key : ∀ l : List String,
      (dedupAdj (List.insertionSort (fun a b => a ≤ b) l)).Sorted (· ≤ ·)
      ∧ (dedupAdj (List.insertionSort (fun a b => a ≤ b) l)).Nodup
      ∧ (∀ x, x ∈ dedupAdj (List.insertionSort (fun a b => a ≤ b) l) ↔ x ∈ l) := by
    intro l
    have hsorted : (List.insertionSort (fun a b => a ≤ b) l).Sorted (fun a b => a ≤ b) :=
      List.sorted_insertionSort _ _
    have hperm := List.perm_insertionSort (fun a b => a ≤ b) l
    exact ⟨(dedupAdj_pairwise_lt _ hsorted).imp (fun h => le_of_lt h),
      (dedupAdj_pairwise_lt _ hsorted).imp (fun h => ne_of_lt h),
      fun x => by rw [dedupAdj_mem, hperm.mem_iff]⟩
  simp only [extract_feature_requirements]
  by_cases hd : declared.isEmpty
  · rw [if_pos hd]
    refine ⟨(key _).1, (key _).2.1, ?_, ?_, ?_⟩
    · intro x hx
      exact ((key _).2.2 x).mp hx
    · intro hne
      exact absurd (by simpa using hd) hne
    · intro _ x
      exact (key _).2.2 x
  · rw [if_neg hd]
    refine ⟨(key _).1, (key _).2.1, ?_, ?_, ?_⟩
    · intro x hx
      have := ((key _).2.2 x).mp hx
      exact List.mem_of_mem_filter this
    · intro _ x hx
      have hmem := ((key _).2.2 x).mp hx
      have := List.of_mem_filter hmem
      simpa using this
    · intro h0
      exact absurd (by simp [h0]) hd

/-- C3 witness: the repository's own unit-test scenario — one attribute carrying
feature flag `auth` in the v57 serialization, declared set `{auth, tls}` —
extraction returns exactly `["auth"]`, and the theorem places that element in
the declared set. -/
theorem c3_extract_features_filter_witness :
    extract_feature_requirements
      ["#[attr = CfgTrace([NameValue \x7b name: \"feature\", value: Some(\"auth\"), span: None \x7d])]"]
      ["auth", "tls"] = ["auth"]
    ∧ "auth" ∈ ["auth", "tls"] := by
  have heval : extract_feature_requirements
      ["#[attr = CfgTrace([NameValue \x7b name: \"feature\", value: Some(\"auth\"), span: None \x7d])]"]
      ["auth", "tls"] = ["auth"] := by
    simp [extract_feature_requirements, findFeatures, featLit, List.isPrefixOf, dedupAdj,
      List.insertionSort, List.orderedInsert]
  refine ⟨heval, ?_⟩
  exact (c3_extract_features_filter
      ["#[attr = CfgTrace([NameValue \x7b name: \"feature\", value: Some(\"auth\"), span: None \x7d])]"]
      ["auth", "tls"]).2.2.2.1 (by decide) "auth" (by rw [heval]; decide)

-- ─── Document model ───────────────────────────────────────────────────────────

/-- Model of `docsrs::types::PathEntry`. -/
structure PathEntry where
  kind : String
  path : List String
  summary : Option String

/-- `PathEntry::kind_name`. -/
def PathEntry.kind_name (p : PathEntry) : String := p.kind

/-- `PathEntry::full_path`: components joined with `::`. -/
def PathEntry.full_path (p : PathEntry) : String := String.intercalate "::" p.path

/-- Model of `docsrs::types::ExternalCrate`. -/
structure ExternalCrate where
  name : String
  html_root_url : Option String

/-- Model of `docsrs::types::RustdocJson`.  The two `HashMap`s are modelled as
association lists with unique keys; list order models the realized iteration
order of a map traversal. -/
structure RustdocJson where
  format_version : Nat
  root : Json
  index : List (String × Item)
  paths : List (String × PathEntry)
  external_crates : List (String × ExternalCrate)
  crate_version : Option String

/-- `HashMap::get` on the association-list model (keys unique, first match). -/
def lookupKV {α : Type} : List (String × α) → String → Option α
  | [], _ => none
  | (k, v) :: rest, key => if k = key then some v else lookupKV rest key

/-- `RustdocJson::root_id`. -/
def RustdocJson.root_id (doc : RustdocJson) : String :=
  match doc.root with
  | Json.num n => toString n
  | Json.str s => s
  | other => jsonToString other

/-- `id_val_to_string` from the source. -/
def id_val_to_string : Json → Option String
  | Json.str s => some s
  | Json.num n => some (toString n)
  | _ => none

-- ─── Module tree building ─────────────────────────────────────────────────────

/-- Model of `docsrs::parser::ItemSummary`. -/
structure ItemSummary where
  kind : String
  name : String
  doc_summary : String

/-- Model of `docsrs::parser::ModuleNode`. -/
inductive ModuleNode where
  | mk (path : String) (doc_summary : String) (item_counts : List (String × Nat))
      (items : List ItemSummary) (children : List ModuleNode)

def ModuleNode.item_counts : ModuleNode → List (String × Nat)
  | ModuleNode.mk _ _ counts _ _ => counts

def ModuleNode.items : ModuleNode → List ItemSummary
  | ModuleNode.mk _ _ _ its _ => its

def ModuleNode.children : ModuleNode → List ModuleNode
  | ModuleNode.mk _ _ _ _ cs => cs

/-- `*item_counts.entry(k).or_insert(0) += 1` on the association-list model. -/
def bumpCount : List (String × Nat) → String → List (String × Nat)
  | [], k => [(k, 1)]
  | (k2, n) :: rest, k =>
    if k2 = k then (k2, n + 1) :: rest else (k2, n) :: bumpCount rest k

/-- One step of the inner loop of `build_children` over a submodule's item ids:
resolve the id, skip `use`/`import`, tally the kind, and collect non-module
items (lambda-lifted from the source's loop body). -/
def tally_step (doc : RustdocJson) (acc : List (String × Nat) × List ItemSummary)
    (sub_id_val : Json) : List (String × Nat) × List ItemSummary :=
  match id_val_to_string sub_id_val with
  | none => acc
  | some sub_id =>
    match lookupKV doc.index sub_id with
    | none => acc
    | some sub_item =>
      match Item.kind sub_item with
      | none => acc
      | some k =>
        if k = "use" ∨ k = "import" then acc
        else
          let counts := bumpCount acc.1 k
          let items :=
            if k ≠ "module" then
              acc.2 ++ [ItemSummary.mk k (sub_item.name.getD "") sub_item.doc_summary]
            else acc.2
          (counts, items)

/-- The per-id body of `build_children` (lambda-lifted): a module item becomes
a `ModuleNode` (children built by `recurse`); anything else yields `none`.
(The source also tallies non-module siblings into a local `other_counts` map
that it never reads; that dead local state is omitted.) -/
def build_child_core (doc : RustdocJson) (recurse : List Json → List ModuleNode)
    (id_val : Json) : Option ModuleNode :=
  match id_val_to_string id_val with
  | none => none
  | some id =>
    match lookupKV doc.index id with
    | none => none
    | some item =>
      if (Item.kind item).getD "unknown" = "module" then
        let path :=
          (match lookupKV doc.paths id with
           | some p => some p.full_path
           | none => item.name).getD id
        let sub_items :=
          (((item.inner_for "module").bind (fun m => m.get? "items")).bind Json.asArr?).getD []
        let ci := sub_items.foldl (tally_step doc) ([], [])
        some (ModuleNode.mk path item.doc_summary ci.1 ci.2 (recurse sub_items))
      else none

/-- Model of `build_children` from the source: depth-capped recursive walk. -/
def build_children (item_ids : List Json) (doc : RustdocJson) (depth : Nat) :
    List ModuleNode :=
  if depth > 5 then []
  else item_ids.filterMap (build_child_core doc (fun sub => build_children sub doc (depth + 1)))
termination_by 6 - depth
decreasing_by
all_goals simp_wf
all_goals omega

/-- Model of `build_module_tree` from the source. -/
def build_module_tree (doc : RustdocJson) : List ModuleNode :=
  match lookupKV doc.index doc.root_id with
  | none => []
  | some root =>
    match root.inner_for "module" with
    | some m => build_children (((m.get? "items").bind Json.asArr?).getD []) doc 0
    | none => []

mutual

/-- Nesting height of a module node (a leaf node has height 1). -/
def nodeHeight : ModuleNode → Nat
  | ModuleNode.mk _ _ _ _ children => 1 + nodeListHeight children
termination_by n => sizeOf n

/-- Maximum nesting height over a list of module nodes. -/
def nodeListHeight : List ModuleNode → Nat
  | [] => 0
  | n :: ns => max (nodeHeight n) (nodeListHeight ns)
termination_by l => sizeOf l

end

mutual

/-- No `use`/`import` kind appears in this node's counts or item list,
recursively. -/
def nodeClean : ModuleNode → Bool
  | ModuleNode.mk _ _ counts items children =>
    counts.all (fun kv => !(kv.1 == "use") && !(kv.1 == "import"))
    && items.all (fun it => !(it.kind == "use") && !(it.kind == "import"))
    && nodeListClean children
termination_by n => sizeOf n

def nodeListClean : List ModuleNode → Bool
  | [] => true
  | n :: ns => nodeClean n && nodeListClean ns
termination_by l => sizeOf l

end

-- ─── C7: depth cap and use/import exclusion ───────────────────────────────────

theorem listHeight_filterMap (f : Json → Option ModuleNode) (l : List Json) (m : Nat)
    (h : ∀ x node, f x = some node → nodeHeight node ≤ m) :
    nodeListHeight (l.filterMap f) ≤ m := by
  induction l with
  | nil => simp [nodeListHeight]
  | cons x xs ih =>
    rw [List.filterMap_cons]
    cases hfx : f x with
    | none => exact ih
    | some node =>
      simp only [nodeListHeight]
      exact max_le (h x node hfx) ih

theorem listClean_filterMap (f : Json → Option ModuleNode) (l : List Json)
    (h : ∀ x node, f x = some node → nodeClean node = true) :
    nodeListClean (l.filterMap f) = true := by
  induction l with
  | nil => simp [nodeListClean]
  | cons x xs ih =>
    rw [List.filterMap_cons]
    cases hfx : f x with
    | none => exact ih
    | some node =>
      simp only [nodeListClean]
      rw [h x node hfx, ih]
      rfl

theorem build_child_core_height {doc : RustdocJson} {recurse : List Json → List ModuleNode}
    {x : Json} {node : ModuleNode} {b : Nat}
    (hrec : ∀ sub, nodeListHeight (recurse sub) ≤ b)
    (h : build_child_core doc recurse x = some node) : nodeHeight node ≤ 1 + b := by
  unfold build_child_core at h
  split at h
  · exact Option.noConfusion h
  · rename_i id hid
    split at h
    · exact Option.noConfusion h
    · rename_i item hitem
      split at h
      · injection h with h
        subst h
        simp only [nodeHeight]
        exact Nat.add_le_add_left (hrec _) 1
      · exact Option.noConfusion h

/-- Cleanliness of the accumulated (counts, items) pair. -/
def cleanPair (acc : List (String × Nat) × List ItemSummary) : Prop :=
  (∀ kv ∈ acc.1, kv.1 ≠ "use" ∧ kv.1 ≠ "import")
  ∧ (∀ it ∈ acc.2, it.kind ≠ "use" ∧ it.kind ≠ "import")

theorem bumpCount_mem {k : String} :
    ∀ {m : List (String × Nat)}, ∀ kv ∈ bumpCount m k, kv.1 = k ∨ kv ∈ m := by
  intro m
  induction m with
  | nil =>
    intro kv hkv
    simp [bumpCount] at hkv
    exact Or.inl (by rw [hkv])
  | cons p rest ih =>
    obtain ⟨k2, n⟩ := p
    intro kv hkv
    by_cases h2 : k2 = k
    · simp only [bumpCount, if_pos h2] at hkv
      rcases List.mem_cons.mp hkv with rfl | htail
      · exact Or.inl h2
      · exact Or.inr (List.mem_cons_of_mem _ htail)
    · simp only [bumpCount, if_neg h2] at hkv
      rcases List.mem_cons.mp hkv with rfl | htail
      · exact Or.inr (List.mem_cons_self _ _)
      · rcases ih kv htail with h | h
        · exact Or.inl h
        · exact Or.inr (List.mem_cons_of_mem _ h)

theorem tally_step_clean (doc : RustdocJson) (acc : List (String × Nat) × List ItemSummary)
    (v : Json) (h : cleanPair acc) : cleanPair (tally_step doc acc v) := by
  unfold tally_step
  split
  · exact h
  · rename_i id hid
    split
    · exact h
    · rename_i item hitem
      split
      · exact h
      · rename_i k hk
        split
        · exact h
        · rename_i hguard
          push_neg at hguard
          constructor
          · intro kv hkv
            rcases bumpCount_mem kv hkv with h1 | h1
            · exact ⟨by rw [h1]; exact hguard.1, by rw [h1]; exact hguard.2⟩
            · exact h.1 kv h1
          · intro it hit
            by_cases hmod : k ≠ "module"
            · simp only [if_pos hmod] at hit
              rcases List.mem_append.mp hit with hold | hnew
              · exact h.2 it hold
              · simp at hnew
                subst hnew
                exact ⟨hguard.1, hguard.2⟩
            · simp only [if_neg hmod] at hit
              exact h.2 it hit

theorem foldl_clean (doc : RustdocJson) :
    ∀ (subs : List Json) (acc), cleanPair acc → cleanPair (subs.foldl (tally_step doc) acc) := by
  intro subs
  induction subs with
  | nil =>
    intro acc h
    exact h
  | cons v rest ih =>
    intro acc h
    exact ih _ (tally_step_clean doc acc v h)

theorem build_child_core_clean {doc : RustdocJson} {recurse : List Json → List ModuleNode}
    {x : Json} {node : ModuleNode}
    (hrec : ∀ sub, nodeListClean (recurse sub) = true)
    (h : build_child_core doc recurse x = some node) : nodeClean node = true := by
  unfold build_child_core at h
  split at h
  · exact Option.noConfusion h
  · rename_i id hid
    split at h
    · exact Option.noConfusion h
    · rename_i item hitem
      split at h
      · injection h with h
        subst h
        have hc := foldl_clean doc
          ((((item.inner_for "module").bind (fun m => m.get? "items")).bind Json.asArr?).getD [])
          ([], []) ⟨by simp, by simp⟩
        simp only [nodeClean]
        rw [Bool.and_eq_true, Bool.and_eq_true]
        refine ⟨⟨?_, ?_⟩, hrec _⟩
        · rw [List.all_eq_true]
          intro kv hkv
          have := hc.1 kv hkv
          simp [this.1, this.2]
        · rw [List.all_eq_true]
          intro it hit
          have := hc.2 it hit
          simp [this.1, this.2]
      · exact Option.noConfusion h

theorem build_children_bounded :
    ∀ (n d : Nat), 6 - d ≤ n → ∀ (ids : List Json) (doc : RustdocJson),
      nodeListHeight (build_children ids doc d) ≤ 6 - d
      ∧ nodeListClean (build_children ids doc d) = true := by
  intro n
  induction n with
  | zero =>
    intro d h ids doc
    have hd : d > 5 := by omega
    rw [build_children.eq_def, if_pos hd]
    exact ⟨by simp [nodeListHeight], by simp [nodeListClean]⟩
  | succ n ih =>
    intro d h ids doc
    by_cases hd : d > 5
    · rw [build_children.eq_def, if_pos hd]
      exact ⟨by simp [nodeListHeight], by simp [nodeListClean]⟩
    · rw [build_children.eq_def, if_neg hd]
      have hrecH : ∀ sub, nodeListHeight (build_children sub doc (d + 1)) ≤ 6 - (d + 1) :=
        fun sub => (ih (d + 1) (by omega) sub doc).1
      have hrecC : ∀ sub, nodeListClean (build_children sub doc (d + 1)) = true :=
        fun sub => (ih (d + 1) (by omega) sub doc).2
      constructor
      · refine le_trans (listHeight_filterMap _ ids (1 + (6 - (d + 1))) ?_) (by omega)
        intro x node hx
        exact build_child_core_height hrecH hx
      · apply listClean_filterMap
        intro x node hx
        exact build_child_core_clean hrecC hx

/-- C7: `build_module_tree` never recurses past depth 5 — the returned forest
has nesting height at most 6 module levels — and no item of kind `use` or
`import` ever appears in any node's `item_counts` or `items`, recursively. -/
theorem c7_module_tree_bounded (doc : RustdocJson) :
    nodeListHeight (build_module_tree doc) ≤ 6
    ∧ nodeListClean (build_module_tree doc) = true := by
  unfold build_module_tree
  split
  · exact ⟨by simp [nodeListHeight], by simp [nodeListClean]⟩
  · rename_i root hroot
    split
    · rename_i m hm
      have := build_children_bounded 6 0 (by omega)
        (((m.get? "items").bind Json.asArr?).getD []) doc
      simpa using this
    · exact ⟨by simp [nodeListHeight], by simp [nodeListClean]⟩

-- ─── Item search ──────────────────────────────────────────────────────────────

/-- Model of `str::to_lowercase` comparisons: lowercase character list. -/
def lower (s : String) : List Char := s.toList.map Char.toLower

/-- Model of `str::contains` (substring search). -/
def containsSub : List Char → List Char → Bool
  | [], pat => pat.isEmpty
  | s@(_ :: rest), pat => pat.isPrefixOf s || containsSub rest pat

/-- Model of `str::starts_with` for the module-prefix filter. -/
def strStartsWith (s pre : String) : Bool := pre.toList.isPrefixOf s.toList

/-- Model of `docsrs::parser::SearchResult`; the score is a rational carrying
the exact constant weights of the source. -/
structure SearchResult where
  path : String
  kind : String
  signature : String
  doc_summary : String
  feature_requirements : List String
  score : ℚ

/-- The kind filter with user-facing alias normalization. -/
def kind_filter_pass (kf : Option String) (item_kind : String) : Bool :=
  match kf with
  | none => true
  | some k =>
    let normalized :=
      if k = "fn" then "function"
      else if k = "mod" then "module"
      else if k = "type" then "type_alias"
      else k
    item_kind == normalized

/-- The module-prefix filter. -/
def mp_pass (mp : Option String) (path : String) : Bool :=
  match mp with
  | none => true
  | some p => strStartsWith path p

/-- Pass-1 score: exact 1.0, name-prefix 0.9, name-contains 0.7,
doc-contains 0.2, else excluded. -/
def score_pass1 (query_lower name_lower doc_lower : List Char) : Option ℚ :=
  if name_lower = query_lower then some 1
  else if query_lower.isPrefixOf name_lower then some (9/10)
  else if containsSub name_lower query_lower then some (7/10)
  else if containsSub doc_lower query_lower then some (1/5)
  else none

/-- Pass-2 score: exact 1.0, name-prefix 0.9, name-contains 0.7,
parent-contains 0.6, doc-contains 0.4, else excluded. -/
def score_pass2 (query_lower name_lower parent_lower doc_lower : List Char) : Option ℚ :=
  if name_lower = query_lower then some 1
  else if query_lower.isPrefixOf name_lower then some (9/10)
  else if containsSub name_lower query_lower then some (7/10)
  else if containsSub parent_lower query_lower then some (3/5)
  else if containsSub doc_lower query_lower then some (2/5)
  else none

/-- The pass-1 loop body (lambda-lifted): one path-table candidate, or `none`
when a filter rejects it or nothing matches. -/
def pass1_entry (doc : RustdocJson) (query : String) (kf mp : Option String)
    (df : List String) (entry : String × Item) : Option SearchResult :=
  match lookupKV doc.paths entry.1 with
  | none => none
  | some pe =>
    let name := entry.2.name.getD ""
    if ¬ kind_filter_pass kf pe.kind_name then none
    else if ¬ mp_pass mp pe.full_path then none
    else if name = "" then none
    else
      match score_pass1 (lower query) (lower name) (lower entry.2.doc_summary) with
      | none => none
      | some score =>
        some (SearchResult.mk pe.full_path pe.kind_name
          (if (Item.kind entry.2).getD "" = "function" then function_signature entry.2
           else pe.kind_name ++ " " ++ name)
          entry.2.doc_summary
          (extract_feature_requirements entry.2.attr_strings df) score)

/-- `HashMap` lookup for a map built by repeated `insert` modelled as an append
journal: the last binding wins. -/
def lookupLast : List (String × String) → String → Option String
  | [], _ => none
  | (k, v) :: rest, key =>
    match lookupLast rest key with
    | some r => some r
    | none => if k = key then some v else none

/-- `type_item_id` from the source. -/
def type_item_id (val : Json) : Option String :=
  match val.get? "resolved_path" with
  | some rp =>
    match rp.get? "id" with
    | some (Json.num n) => some (toString n)
    | some (Json.str s) => some s
    | _ => none
  | none =>
    match val.get? "id", val.get? "path" with
    | some (Json.num n), some _ => some (toString n)
    | some (Json.str s), some _ => some s
    | _, _ => none

/-- Inner loop of `build_method_parent_map`: insert each method id of an impl
block with its parent path (last writer wins on collision). -/
def impl_method_fold (parent_path : String) (m : List (String × String)) (idv : Json) :
    List (String × String) :=
  match id_val_to_string idv with
  | some mid => m ++ [(mid, parent_path)]
  | none => m

/-- Model of `build_method_parent_map` from the source: method item id →
owning type's qualified path, inherent impls only. -/
def build_method_parent_map (doc : RustdocJson) : List (String × String) :=
  doc.index.foldl (fun m entry =>
    if ¬ (Item.kind entry.2 == some "impl") then m
    else
      match entry.2.inner_for "impl" with
      | none => m
      | some impl_inner =>
        let trait_is_null : Bool :=
          match impl_inner.get? "trait" with
          | none => true
          | some t => t.isNull
        if ¬ trait_is_null then m
        else
          match impl_inner.get? "for" with
          | none => m
          | some for_val =>
            let parent_path :=
              (((type_item_id for_val).bind (lookupKV doc.paths)).map
                PathEntry.full_path).getD (type_to_string for_val)
            if parent_path = "" then m
            else
              (((impl_inner.get? "items").bind Json.asArr?).getD []).foldl
                (impl_method_fold parent_path) m) []

/-- Pass 2 runs only with no kind filter or the exact filter `"method"`. -/
def want_methods (kf : Option String) : Bool := kf.isNone || kf == some "method"

/-- The pass-2 loop body (lambda-lifted): one method candidate, or `none`. -/
def pass2_entry (doc : RustdocJson) (query : String) (mp : Option String)
    (df : List String) (mpm : List (String × String)) (entry : String × Item) :
    Option SearchResult :=
  if (lookupKV doc.paths entry.1).isSome then none
  else if ¬ (Item.kind entry.2 == some "function") then none
  else
    match lookupLast mpm entry.1 with
    | none => none
    | some parent_path =>
      let name := entry.2.name.getD ""
      if name = "" then none
      else if ¬ mp_pass mp parent_path then none
      else
        match score_pass2 (lower query) (lower name) (lower parent_path)
            (lower entry.2.doc_summary) with
        | none => none
        | some score =>
          some (SearchResult.mk (parent_path ++ "::" ++ name) "method"
            (function_signature entry.2) entry.2.doc_summary
            (extract_feature_requirements entry.2.attr_strings df) score)

/-- All pass-1 candidates in index-iteration order. -/
def pass1_results (doc : RustdocJson) (query : String) (kf mp : Option String)
    (df : List String) : List SearchResult :=
  doc.index.filterMap (pass1_entry doc query kf mp df)

/-- All pass-2 candidates in index-iteration order (empty when pass 2 is
disabled by the kind filter). -/
def pass2_results (doc : RustdocJson) (query : String) (kf mp : Option String)
    (df : List String) : List SearchResult :=
  if want_methods kf then
    doc.index.filterMap (pass2_entry doc query mp df (build_method_parent_map doc))
  else []

/-- The complete candidate set of both passes, pass 1 first. -/
def search_candidates (doc : RustdocJson) (query : String) (kf mp : Option String)
    (df : List String) : List SearchResult :=
  pass1_results doc query kf mp df ++ pass2_results doc query kf mp df

/-- Stable insertion into a descending-by-score list: an element goes before
the first element with score ≤ its own, so earlier candidates stay first on
ties. -/
def insertDesc (x : SearchResult) : List SearchResult → List SearchResult
  | [] => [x]
  | y :: ys => if y.score ≤ x.score then x :: y :: ys else y :: insertDesc x ys

/-- The stable descending-by-score sort: the model of Rust's stable
`sort_by(|a, b| b.score.partial_cmp(&a.score)...)` (stable sorts w.r.t. a
total preorder agree as functions). -/
def sortDesc : List SearchResult → List SearchResult
  | [] => []
  | x :: xs => insertDesc x (sortDesc xs)

/-- Model of `search_items` from the source: both passes, global stable
descending sort, then truncation to `limit`. -/
def search_items (doc : RustdocJson) (query : String) (kf mp : Option String)
    (limit : Nat) (df : List String) : List SearchResult :=
  (sortDesc (search_candidates doc query kf mp df)).take limit

-- ─── Sorting lemmas and C1/C10 ────────────────────────────────────────────────

theorem insertDesc_perm (x : SearchResult) (l : List SearchResult) :
    List.Perm (insertDesc x l) (x :: l) := by
  induction l with
  | nil => exact List.Perm.refl _
  | cons y ys ih =>
    by_cases h : y.score ≤ x.score
    · simp only [insertDesc, if_pos h]
      exact List.Perm.refl _
    · simp only [insertDesc, if_neg h]
      exact List.Perm.trans (List.Perm.cons y ih) (List.Perm.swap x y ys)

theorem sortDesc_perm (l : List SearchResult) : List.Perm (sortDesc l) l := by
  induction l with
  | nil => exact List.Perm.refl _
  | cons x xs ih =>
    simp only [sortDesc]
    exact List.Perm.trans (insertDesc_perm x (sortDesc xs)) (List.Perm.cons x ih)

theorem insertDesc_pairwise (x : SearchResult) (l : List SearchResult)
    (h : l.Pairwise (fun a b => b.score ≤ a.score)) :
    (insertDesc x l).Pairwise (fun a b => b.score ≤ a.score) := by
  induction l with
  | nil => simp [insertDesc]
  | cons y ys ih =>
    rcases List.pairwise_cons.mp h with ⟨hy, hys⟩
    by_cases hc : y.score ≤ x.score
    · simp only [insertDesc, if_pos hc]
      refine List.pairwise_cons.mpr ⟨?_, h⟩
      intro z hz
      rcases List.mem_cons.mp hz with rfl | hzys
      · exact hc
      · exact le_trans (hy z hzys) hc
    · simp only [insertDesc, if_neg hc]
      refine List.pairwise_cons.mpr ⟨?_, ih hys⟩
      intro z hz
      have hz2 : z ∈ x :: ys := (insertDesc_perm x ys).mem_iff.mp hz
      rcases List.mem_cons.mp hz2 with rfl | hzys
      · exact le_of_lt (lt_of_not_le hc)
      · exact hy z hzys

theorem sortDesc_pairwise (l : List SearchResult) :
    (sortDesc l).Pairwise (fun a b => b.score ≤ a.score) := by
  induction l with
  | nil => simp [sortDesc]
  | cons x xs ih =>
    simp only [sortDesc]
    exact insertDesc_pairwise x _ ih

theorem insertDesc_filter (x : SearchResult) (l : List SearchResult) (s : ℚ) :
    (insertDesc x l).filter (fun r => decide (r.score = s)) =
      if x.score = s then x :: l.filter (fun r => decide (r.score = s))
      else l.filter (fun r => decide (r.score = s)) := by
  induction l with
  | nil =>
    by_cases hx : x.score = s <;> simp [insertDesc, List.filter, hx]
  | cons y ys ih =>
    by_cases hc : y.score ≤ x.score
    · simp only [insertDesc, if_pos hc, List.filter_cons]
      by_cases hx : x.score = s <;> simp [hx]
    · simp only [insertDesc, if_neg hc, List.filter_cons]
      by_cases hx : x.score = s
      · have hy : ¬ (y.score = s) := by
          intro he
          exact hc (by rw [he, hx])
        simp [hx, hy, ih]
      · simp [hx, ih]

theorem sortDesc_filter (l : List SearchResult) (s : ℚ) :
    (sortDesc l).filter (fun r => decide (r.score = s)) =
      l.filter (fun r => decide (r.score = s)) := by
  induction l with
  | nil => rfl
  | cons x xs ih =>
    simp only [sortDesc]
    rw [insertDesc_filter, List.filter_cons]
    by_cases hx : x.score = s <;> simp [hx, ih]

/-- C1: `search_items` is exactly the stable descending sort of the complete
candidate set of both passes, truncated to `limit` only after the full sort:
the sort is a permutation of the candidates, is ordered descending by score,
and keeps candidates of equal score in encounter order (filtering the sorted
list at any score value gives the same list as filtering the raw candidates). -/
theorem c1_search_sort_truncate (doc : RustdocJson) (query : String) (kf mp : Option String)
    (limit : Nat) (df : List String) :
    search_items doc query kf mp limit df =
      (sortDesc (search_candidates doc query kf mp df)).take limit
    ∧ List.Perm (sortDesc (search_candidates doc query kf mp df))
        (search_candidates doc query kf mp df)
    ∧ (sortDesc (search_candidates doc query kf mp df)).Pairwise
        (fun a b => b.score ≤ a.score)
    ∧ ∀ s : ℚ,
        (sortDesc (search_candidates doc query kf mp df)).filter
          (fun r => decide (r.score = s)) =
        (search_candidates doc query kf mp df).filter (fun r => decide (r.score = s)) :=
  ⟨rfl, sortDesc_perm _, sortDesc_pairwise _, fun s => sortDesc_filter _ s⟩

/-- C10: at every score value, the returned list's results of that score are a
prefix of (pass-1 results of that score, in encounter order) followed by
(pass-2 results of that score, in encounter order): pass-1 items precede all
pass-2 items of equal score. -/
theorem c10_pass1_precede_pass2 (doc : RustdocJson) (query : String) (kf mp : Option String)
    (limit : Nat) (df : List String) (s : ℚ) :
    ∃ rest,
      (search_items doc query kf mp limit df).filter (fun r => decide (r.score = s)) ++ rest =
      (pass1_results doc query kf mp df).filter (fun r => decide (r.score = s)) ++
        (pass2_results doc query kf mp df).filter (fun r => decide (r.score = s)) := by
  refine ⟨((sortDesc (search_candidates doc query kf mp df)).drop limit).filter
      (fun r => decide (r.score = s)), ?_⟩
  unfold search_items
  rw [← List.filter_append, List.take_append_drop, sortDesc_filter]
  unfold search_candidates
  rw [List.filter_append]

-- ─── C9: the empty query scores every named candidate 0.9 ─────────────────────

theorem lower_eq_nil_iff (s : String) : lower s = [] ↔ s = "" := by
  unfold lower
  rw [List.map_eq_nil]
  constructor
  · intro h
    exact String.ext (h.trans (by rfl))
  · intro h
    subst h
    rfl

/-- C9: with the empty query, every path-table entry with a non-empty name that
passes the kind and module-prefix filters becomes a pass-1 candidate with score
exactly 0.9 (the empty string is a prefix of every name, and equality with a
non-empty name is impossible), and likewise every resolvable method with a
non-empty name passing the prefix filter becomes a pass-2 candidate with score
0.9; in both cases the candidate appears in the complete candidate set, so the
empty query never excludes a named candidate. -/
theorem c9_empty_query_scores (doc : RustdocJson) (kf mp : Option String) (df : List String) :
    (∀ id item pe, lookupKV doc.paths id = some pe →
      kind_filter_pass kf pe.kind_name = true →
      mp_pass mp pe.full_path = true →
      item.name.getD "" ≠ "" →
      ∃ r, pass1_entry doc "" kf mp df (id, item) = some r ∧ r.score = 9/10
        ∧ ((id, item) ∈ doc.index → r ∈ search_candidates doc "" kf mp df))
    ∧ (∀ id item parent_path,
      lookupKV doc.paths id = none →
      Item.kind item = some "function" →
      lookupLast (build_method_parent_map doc) id = some parent_path →
      item.name.getD "" ≠ "" →
      mp_pass mp parent_path = true →
      want_methods kf = true →
      ∃ r, pass2_entry doc "" mp df (build_method_parent_map doc) (id, item) = some r
        ∧ r.score = 9/10
        ∧ ((id, item) ∈ doc.index → r ∈ search_candidates doc "" kf mp df)) := by
  constructor
  · intro id item pe hpe hk hmpp hn
    have hnl : lower (item.name.getD "") ≠ [] := fun he => hn ((lower_eq_nil_iff _).mp he)
    have hscore : score_pass1 (lower "") (lower (item.name.getD ""))
        (lower (Item.doc_summary item)) = some (9/10) := by
      rw [show lower "" = [] from rfl]
      unfold score_pass1
      rw [if_neg hnl, if_pos (by simp [List.isPrefixOf_nil_left])]
    refine ⟨SearchResult.mk pe.full_path pe.kind_name
      (if (Item.kind item).getD "" = "function" then function_signature item
       else pe.kind_name ++ " " ++ item.name.getD "")
      (Item.doc_summary item)
      (extract_feature_requirements (Item.attr_strings item) df) (9/10), ?_, rfl, ?_⟩
    · unfold pass1_entry
      simp only [hpe]
      simp [hk, hmpp, hn, hscore]
    · intro hmem
      unfold search_candidates pass1_results
      apply List.mem_append_left
      refine List.mem_filterMap.mpr ⟨(id, item), hmem, ?_⟩
      unfold pass1_entry
      simp only [hpe]
      simp [hk, hmpp, hn, hscore]
  · intro id item parent hid hkind hpar hn hmpp hwm
    have hnl : lower (item.name.getD "") ≠ [] := fun he => hn ((lower_eq_nil_iff _).mp he)
    have hscore : score_pass2 (lower "") (lower (item.name.getD "")) (lower parent)
        (lower (Item.doc_summary item)) = some (9/10) := by
      rw [show lower "" = [] from rfl]
      unfold score_pass2
      rw [if_neg hnl, if_pos (by simp [List.isPrefixOf_nil_left])]
    refine ⟨SearchResult.mk (parent ++ "::" ++ item.name.getD "") "method"
      (function_signature item) (Item.doc_summary item)
      (extract_feature_requirements (Item.attr_strings item) df) (9/10), ?_, rfl, ?_⟩
    · unfold pass2_entry
      simp [hid, hkind, hpar, hn, hmpp, hscore]
    · intro hmem
      unfold search_candidates pass2_results
      apply List.mem_append_right
      rw [if_pos hwm]
      refine List.mem_filterMap.mpr ⟨(id, item), hmem, ?_⟩
      unfold pass2_entry
      simp [hid, hkind, hpar, hn, hmpp, hscore]

/-- A struct item used by the C9 witness document. -/
def w9_foo : Item :=
  Item.mk Json.null (some "Foo") none [] none (Json.obj [("struct", Json.null)]) none none none

/-- An inherent method item (absent from the path table) for the C9 witness. -/
def w9_bar : Item :=
  Item.mk Json.null (some "bar") none [] none (Json.obj [("function", Json.null)]) none none none

/-- The inherent impl block attaching `bar` to `Foo` for the C9 witness. -/
def w9_impl : Item :=
  Item.mk Json.null none none [] none
    (Json.obj [("impl", Json.obj
      [("for", Json.obj [("resolved_path", Json.obj
          [("id", Json.num 1), ("path", Json.str "Foo")])]),
       ("items", Json.arr [Json.str "2"])])]) none none none

/-- A tiny document for the C9 witness: one named struct in the path table and
one inherent method reachable only through the impl block. -/
def w9_doc : RustdocJson :=
  RustdocJson.mk 57 (Json.num 0)
    [("1", w9_foo), ("2", w9_bar), ("3", w9_impl)]
    [("1", PathEntry.mk "struct" ["crate", "Foo"] none)]
    [] none

/-- C9 witness: on the empty query, the named struct `Foo` and the inherent
method `bar` both score exactly 0.9. -/
theorem c9_empty_query_scores_witness :
    (pass1_entry w9_doc "" none none [] ("1", w9_foo)).map SearchResult.score = some (9/10)
    ∧ (pass2_entry w9_doc "" none [] (build_method_parent_map w9_doc) ("2", w9_bar)).map
        SearchResult.score = some (9/10) := by
  constructor
  · obtain ⟨r, hr, hs, _⟩ := (c9_empty_query_scores w9_doc none none []).1 "1" w9_foo
      (PathEntry.mk "struct" ["crate", "Foo"] none) rfl rfl rfl (by decide)
    rw [hr]
    simp [hs]
  · obtain ⟨r, hr, hs, _⟩ := (c9_empty_query_scores w9_doc none none []).2 "2" w9_bar
      "crate::Foo" rfl rfl rfl (by decide) rfl rfl
    rw [hr]
    simp [hs]

end Docsrs
